import Mathlib

/-!
# Verification of the fastgallery incremental synchronization engine

This file gives a shallow embedding, in Lean, of the core of the fastgallery
program (the recursive tree scanner, the reconciliation pass over the source
and gallery trees, the change counter, the worker step for one transformation
job, the signal-handler cleanup and the garbage-collection pass), together
with theorems settling a list of claims about that code.

Modelling conventions:
* Go strings are Lean `String`s; `time.Time` values are modelled as `Int`
  (only comparisons of modification times matter; `t.After(u)` is `u < t`).
* The filesystem is modelled explicitly where a function reads it: directory
  listings as a tree of entries (`fsEntry`) with a `readable` flag standing
  for whether `os.ReadDir` succeeds on that directory, the set of regular
  files a worker writes or removes as a `List String` of paths, and a
  mutation-free `String → Bool` oracle where only existence of one path is
  consulted.  Symbolic links and `entry.Info()` failures are not modelled
  (no claim concerns them).
* In-place mutation through pointers is modelled by functions returning the
  updated values.
* `os.Exit` is modelled by returning an `Except` value or an explicit flag.
* The Go identifier `exists` is a Lean keyword, so the struct field is
  spelled `exists'` here.
-/

/-- Go `filepath.Ext`: the suffix beginning at the final dot in the final
slash-separated element of the path; empty when there is no dot. -/
def goExt (s : String) : String :=
  let rev := s.data.reverse
  let pre := rev.takeWhile (fun c => c != '.' && c != '/')
  match rev.drop pre.length with
  | '.' :: _ => String.mk ('.' :: pre.reverse)
  | _ => ""

/-- `stripExtension` strips the filename extension and returns the basename
(`filename[0 : len(filename)-len(extension)]`; the extension is a character
suffix, so byte slicing and character slicing agree). -/
def stripExtension (filename : String) : String :=
  String.mk (filename.data.take (filename.data.length - (goExt filename).data.length))

/-- Go `filepath.Join` restricted to the shapes the engine uses (no `..`
cleaning is ever needed on the joined paths). -/
def goJoin (a b : String) : String :=
  if a = "" then b else if b = "" then a else a ++ "/" ++ b

/-- Three-component join, as in `filepath.Join(gallery.absPath, source.relPath, htmlFile)`. -/
def goJoin3 (a b c : String) : String :=
  goJoin (goJoin a b) c

/-- Go `filepath.Base` for the paths the engine uses: the last
slash-separated component. -/
def goBase (p : String) : String :=
  ((p.splitOn "/").reverse).headD p

/-- Go `strings.ToLower`, character by character (`String.map Char.toLower`
does the same but does not reduce definitionally; the Unicode special cases
where Go differs from the per-character ASCII mapping cannot affect the
ASCII extension comparisons below). -/
def goToLower (s : String) : String :=
  String.mk (s.data.map Char.toLower)

/-- `isVideoFile` checks whether the given path is a video file. -/
def isVideoFile (filename : String) : Bool :=
  let e := goExt (goToLower filename)
  e == ".mp4" || e == ".mov" || e == ".3gp" || e == ".avi" || e == ".mts" || e == ".m4v" || e == ".mpg"

/-- `isImageFile` checks whether the given path is an image file. -/
def isImageFile (filename : String) : Bool :=
  let e := goExt (goToLower filename)
  e == ".jpg" || e == ".jpeg" || e == ".heic" || e == ".png" || e == ".gif" || e == ".tif" || e == ".tiff" ||
  e == ".cr2" || e == ".raw" || e == ".arw"

/-- `isMediaFile` checks whether the given path is a media file. -/
def isMediaFile (filename : String) (noVideos : Bool) : Bool :=
  if isImageFile filename then true
  else if !noVideos && isVideoFile filename then true
  else false

/-- The `files` part of the `configuration` struct (the `os.FileMode` fields,
which only parametrize system calls, are omitted). -/
structure filesConfig where
  originalDir : String
  fullsizeDir : String
  thumbnailDir : String
  imageExtension : String
  videoExtension : String
deriving DecidableEq, Repr

/-- The `assets` part of the `configuration` struct (the template-name fields,
used only by the excluded HTML/manifest collaborators, are omitted). -/
structure assetsConfig where
  assetsDir : String
  htmlFile : String
  backIcon : String
  folderIcon : String
  playIcon : String
  manifestFile : String
deriving DecidableEq, Repr

/-- The `configuration` struct (the numeric `media` parameters, consumed only
by the excluded pixel-transformation collaborators, are omitted). -/
structure configuration where
  files : filesConfig
  assets : assetsConfig
  concurrency : Nat
deriving DecidableEq, Repr

/-- `initializeConfig` initializes the configuration with hardcoded defaults. -/
def initializeConfig : configuration :=
  { files := { originalDir := "_original", fullsizeDir := "_fullsize", thumbnailDir := "_thumbnail",
               imageExtension := ".jpg", videoExtension := ".mp4" },
    assets := { assetsDir := "assets", htmlFile := "index.html", backIcon := "back.png",
                folderIcon := "folder.png", playIcon := "playbutton.png", manifestFile := "manifest.json" },
    concurrency := 4 }

/-- The `file` struct: one media file with its up-to-date flag
(`exists` in Go; spelled `exists'` here because `exists` is a Lean keyword). -/
structure file where
  name : String
  relPath : String
  absPath : String
  modTime : Int
  exists' : Bool
deriving DecidableEq, Repr, Inhabited

/-- The `directory` struct: one directory with files and subdirectories.
Recursive, hence an inductive type with explicit projections below. -/
inductive directory where
  | mk (name : String) (relPath : String) (absPath : String) (modTime : Int)
       (files : List file) (subdirectories : List directory) (exists' : Bool)
deriving Inhabited

def directory.name : directory → String
  | .mk n _ _ _ _ _ _ => n

def directory.relPath : directory → String
  | .mk _ rp _ _ _ _ _ => rp

def directory.absPath : directory → String
  | .mk _ _ ap _ _ _ _ => ap

def directory.modTime : directory → Int
  | .mk _ _ _ mt _ _ _ => mt

def directory.files : directory → List file
  | .mk _ _ _ _ fs _ _ => fs

def directory.subdirectories : directory → List directory
  | .mk _ _ _ _ _ subs _ => subs

def directory.exists' : directory → Bool
  | .mk _ _ _ _ _ _ ex => ex

/-- `reservedDirectory` takes a path and checks whether it is a reserved name,
i.e. one of the internal directories used by fastgallery. -/
def reservedDirectory (path : String) (config : configuration) : Bool :=
  if path = config.files.thumbnailDir then true
  else if path = config.files.fullsizeDir then true
  else if path = config.files.originalDir then true
  else false

/-- `reservedFile` takes a path and checks whether it is a reserved file,
such as one of the asset files. -/
def reservedFile (path : String) (config : configuration) : Bool :=
  if path = config.assets.backIcon then true
  else if path = config.assets.folderIcon then true
  else if path = config.assets.manifestFile then true
  else false

/-! ## Filesystem model for the scanner

`fsEntry` models one entry of the on-disk tree handed to `os.ReadDir`.  The
`readable` flag of a directory records whether `os.ReadDir` succeeds on it.
Symbolic links are not modelled (`isSymlinkDir` is always false), and
`entry.Info()` is modelled as always succeeding, its result being the
`modTime` stored in the entry. -/
inductive fsEntry where
  | fileE (name : String) (modTime : Int)
  | dirE (name : String) (modTime : Int) (readable : Bool) (entries : List fsEntry)
deriving Inhabited, Repr

def fsEntry.fsName : fsEntry → String
  | .fileE n _ => n
  | .dirE n _ _ _ => n

mutual
/-- `dirHasMediafiles` checks whether a directory has media files, or
subdirectories with media files.  When the directory contents cannot be read
it returns `false` (the Go code comments: "If we can't read the directory
contents, it doesn't have media files in it"). -/
def dirHasMediafiles : fsEntry → Bool → Bool
  | .fileE _ _, _ => false
  | .dirE _ _ readable entries, noVideos =>
    if !readable then false
    else if entries.isEmpty then false
    else entriesHaveMedia entries noVideos

/-- The loop body of `dirHasMediafiles`: recurse into subdirectory entries,
test file entries with `isMediaFile`, return `true` on the first hit.
`isMediaFile` is applied to the entry name; the Go code applies it to the
absolute path, whose extension is that of the name. -/
def entriesHaveMedia : List fsEntry → Bool → Bool
  | [], _ => false
  | e :: es, noVideos =>
    (match e with
     | .fileE n _ => isMediaFile n noVideos
     | .dirE _ _ _ _ => dirHasMediafiles e noVideos) || entriesHaveMedia es noVideos
end

mutual
/-- `createDirectoryTree` builds a recursive `directory` struct by traversing
the given directory.  A `ReadDir` failure (`readable = false`) is fatal
(`log.Println` + `exit(1)` in Go, an `Except.error` here).  Calling it on a
regular file also errors (in Go the `ReadDir` would fail); `main` only calls
it on directories. -/
def createDirectoryTree : fsEntry → String → String → Bool → Except String directory
  | .fileE _ _, absoluteDirectory, _, _ =>
    .error ("Couldn't read directory contents: " ++ absoluteDirectory)
  | .dirE n mt readable entries, absoluteDirectory, parentDirectory, noVideos =>
    if !readable then .error ("Couldn't read directory contents: " ++ absoluteDirectory)
    else
      match scanEntries entries absoluteDirectory parentDirectory noVideos with
      | .error msg => .error msg
      | .ok (fs, subs) => .ok (.mk n parentDirectory absoluteDirectory mt fs subs false)

/-- The entry loop of `createDirectoryTree`: a subdirectory is scanned
recursively only when `dirHasMediafiles` holds of it, a media file is added
to the files list, anything else is dropped.  Listing order is preserved
within each of the two lists, as the Go `append`s do. -/
def scanEntries : List fsEntry → String → String → Bool → Except String (List file × List directory)
  | [], _, _, _ => .ok ([], [])
  | e :: es, absoluteDirectory, parentDirectory, noVideos =>
    match e with
    | .fileE n emt =>
      if isMediaFile n noVideos then
        match scanEntries es absoluteDirectory parentDirectory noVideos with
        | .error msg => .error msg
        | .ok (fs, subs) =>
          .ok (file.mk n (goJoin parentDirectory n) (goJoin absoluteDirectory n) emt false :: fs, subs)
      else scanEntries es absoluteDirectory parentDirectory noVideos
    | .dirE _ _ _ _ =>
      if dirHasMediafiles e noVideos then
        match createDirectoryTree e (goJoin absoluteDirectory e.fsName) (goJoin parentDirectory e.fsName) noVideos with
        | .error msg => .error msg
        | .ok sub =>
          match scanEntries es absoluteDirectory parentDirectory noVideos with
          | .error msg => .error msg
          | .ok (fs, subs) => .ok (fs, sub :: subs)
      else scanEntries es absoluteDirectory parentDirectory noVideos
end

/-- The root call of `createDirectoryTree` as `main` performs it: when the
target directory does not exist (`root = none`, the not-yet-created gallery)
a dummy tree is returned instead of failing. -/
def createDirectoryTreeRoot (root : Option fsEntry) (absoluteDirectory : String) (noVideos : Bool) :
    Except String directory :=
  match root with
  | none => .ok (.mk (goBase absoluteDirectory) "" absoluteDirectory 0 [] [] false)
  | some e => createDirectoryTree e absoluteDirectory "" noVideos

/-! ## Reconciler

`compareDirectoryTrees` mutates the two trees in place.  The embedding splits
the single Go pass into one function computing the updated source tree and one
computing the updated gallery tree.  The split is exact because the pass only
ever writes `exists` flags and never reads one: every test it performs is on
names and modification times, which it leaves untouched.  For the same reason
the cumulative effect of the per-source-file marking loop is expressed with
`List.map`, and the repeated-invocation threading (several same-named
subdirectories on the other side) is expressed by handing the recursion the
list of all matching counterpart directories: each invocation's decisions
are independent and only set flags. -/

/-- The inner matching loop over one reserved subdirectory's files: the Go
code walks the files in order keeping a pointer to the most recent file whose
stripped name equals the source file's basename, so the pointer ends on the
last match (`none` when there is none). -/
def lastMatch (basename : String) : List file → Option file
  | [] => none
  | f :: rest =>
    (lastMatch basename rest).or (if stripExtension f.name = basename then some f else none)

/-- The outer loop over the gallery's subdirectories for one of the three
reserved names: subdirectories are walked in order and the pointer is
overwritten whenever a later subdirectory with the reserved name contains a
match, so a match found later wins. -/
def lastReservedMatch (dirName basename : String) : List directory → Option file
  | [] => none
  | sd :: rest =>
    (lastReservedMatch dirName basename rest).or
      (if sd.name = dirName then lastMatch basename sd.files else none)

/-- The per-source-file up-to-date decision of `compareDirectoryTrees`: the
thumbnail, full-size and original pointers must all have been set, and the
thumbnail's modification time must be strictly after the source file's
(`thumbnailFile.modTime.After(sourceFile.modTime)`). -/
def fileDecision (config : configuration) (sf : file) (gallery : directory) : Bool :=
  let basename := stripExtension sf.name
  match lastReservedMatch config.files.thumbnailDir basename gallery.subdirectories,
        lastReservedMatch config.files.fullsizeDir basename gallery.subdirectories,
        lastReservedMatch config.files.originalDir basename gallery.subdirectories with
  | some thumbnailFile, some _, some _ => sf.modTime < thumbnailFile.modTime
  | _, _, _ => false

/-- Gallery-side marking for one reserved subdirectory: a file is marked
`exists = true` exactly when some source file of some comparing source
directory shares its stripped basename (the cumulative effect of the marking
statements inside the three matching loops). -/
def markGallerySubdir (ss : List directory) : directory → directory
  | .mk n rp ap mt fs subs ex =>
    .mk n rp ap mt
      (fs.map fun f =>
        if ss.any (fun s => s.files.any fun sf => stripExtension sf.name = stripExtension f.name)
        then { f with exists' := true } else f)
      subs ex

mutual
/-- Source-tree side of `compareDirectoryTrees`.  `gs` is the list of gallery
directories this source directory is compared against (a singleton at the
root; possibly several when same-named gallery subdirectories each trigger a
recursive invocation).  When `gs` is empty the directory is never compared at
all and is returned unchanged. -/
def compareSourceDir (config : configuration) : directory → List directory → directory
  | .mk n rp ap mt fs subs ex, gs =>
    if gs.isEmpty then .mk n rp ap mt fs subs ex else
    .mk n rp ap mt
      (fs.map fun sf => if gs.any (fun g => fileDecision config sf g) then { sf with exists' := true } else sf)
      (compareSourceSubdirs config subs gs)
      true

/-- Recursion of the source side: a reserved-named source subdirectory is
skipped; any other is compared against every same-named subdirectory of the
comparing gallery directories. -/
def compareSourceSubdirs (config : configuration) : List directory → List directory → List directory
  | [], _ => []
  | sk :: sks, gs =>
    (if reservedDirectory sk.name config then sk
     else compareSourceDir config sk
       ((gs.map (fun g => g.subdirectories.filter (fun gl => gl.name = sk.name))).flatten))
    :: compareSourceSubdirs config sks gs
end

mutual
/-- Gallery-tree side of `compareDirectoryTrees`.  `ss` is the list of source
directories this gallery directory is compared against; empty means the
directory is never compared and is returned unchanged. -/
def compareGalleryDir (config : configuration) : directory → List directory → directory
  | .mk n rp ap mt fs subs ex, ss =>
    if ss.isEmpty then .mk n rp ap mt fs subs ex else
    .mk n rp ap mt fs (compareGallerySubdirs config subs ss) true

/-- Recursion of the gallery side: a subdirectory carrying one of the three
reserved names has its files marked (and is itself neither marked nor
recursed into); any other is compared against every same-named, non-reserved
subdirectory of the comparing source directories. -/
def compareGallerySubdirs (config : configuration) : List directory → List directory → List directory
  | [], _ => []
  | gl :: gls, ss =>
    (if gl.name = config.files.thumbnailDir ∨ gl.name = config.files.fullsizeDir ∨ gl.name = config.files.originalDir then
       markGallerySubdir ss gl
     else
       compareGalleryDir config gl
         ((ss.map (fun s => s.subdirectories.filter
            (fun sk => !reservedDirectory sk.name config && sk.name = gl.name))).flatten))
    :: compareGallerySubdirs config gls ss
end

/-- `compareDirectoryTrees` compares the source and gallery trees and marks
each file and directory that exists in both; the pair is (updated source,
updated gallery). -/
def compareDirectoryTrees (source gallery : directory) (config : configuration) :
    directory × directory :=
  (compareSourceDir config source [gallery], compareGalleryDir config gallery [source])

/-! ## Change counter and per-directory change test -/

mutual
/-- `countChanges` counts, over the whole tree, the files whose `exists` flag
is false and whose name is not a reserved asset file. -/
def countChanges : directory → configuration → Nat
  | .mk _ _ _ _ fs subs _, config =>
    fs.countP (fun f => !f.exists' && !reservedFile f.name config) + countChangesList subs config

def countChangesList : List directory → configuration → Nat
  | [], _ => 0
  | d :: ds, config => countChanges d config + countChangesList ds config
end

/-- `hasDirectoryChanged` checks whether the gallery directory has changed and
thus the HTML file needs to be updated.  The final `os.Stat` on the
directory's `index.html` is modelled by the `fsExists` oracle applied to the
joined path. -/
def hasDirectoryChanged (source gallery : directory) (cleanUpFlag : Bool)
    (config : configuration) (fsExists : String → Bool) : Bool :=
  if source.files.any (fun sourceFile => !sourceFile.exists') then true
  else if source.subdirectories.any (fun sourceDir => !sourceDir.exists') then true
  else if cleanUpFlag &&
      (gallery.files.any (fun galleryFile => !reservedFile galleryFile.name config && !galleryFile.exists') ||
       gallery.subdirectories.any (fun galleryDir => !galleryDir.exists')) then true
  else if !fsExists (goJoin3 gallery.absPath source.relPath config.assets.htmlFile) then true
  else false

/-! ## Cleanup (garbage collector)

The filesystem effects of `cleanUp`/`cleanDirectory` are modelled as the list
of actions the pass performs, in order: `removeAll p` for an `os.RemoveAll(p)`
call, `wouldLog p` for the dry-run log line announcing the deletion of `p`. -/

inductive fsAction where
  | removeAll (path : String)
  | wouldLog (path : String)
deriving DecidableEq, Repr

/-- `cleanDirectory` cleans one gallery directory of any files or directories
which don't exist in source: files not up to date and not reserved asset
files, then subdirectories neither reserved nor up to date. -/
def cleanDirectory (gallery : directory) (dryRun : Bool) (config : configuration) : List fsAction :=
  ((gallery.files.filter (fun f => !f.exists' && !reservedFile f.name config)).map fun f =>
     if dryRun then .wouldLog (goJoin gallery.absPath f.name)
     else .removeAll (goJoin gallery.absPath f.name)) ++
  ((gallery.subdirectories.filter (fun d => !reservedDirectory d.name config && !d.exists')).map fun d =>
     if dryRun then .wouldLog (goJoin gallery.absPath d.name)
     else .removeAll (goJoin gallery.absPath d.name))

mutual
/-- `cleanUp` cleans stale files and directories from the gallery
recursively: the directory itself first, then every subdirectory in order
(including reserved ones, whose stale derived files are collected this way). -/
def cleanUp : directory → Bool → configuration → List fsAction
  | .mk n rp ap mt fs subs ex, dryRun, config =>
    cleanDirectory (.mk n rp ap mt fs subs ex) dryRun config ++ cleanUpList subs dryRun config

def cleanUpList : List directory → Bool → configuration → List fsAction
  | [], _, _ => []
  | d :: ds, dryRun, config => cleanUp d dryRun config ++ cleanUpList ds dryRun config
end

/-- The paths actually deleted by a list of cleanup actions. -/
def removedPaths (acts : List fsAction) : List String :=
  acts.filterMap fun a => match a with | .removeAll p => some p | .wouldLog _ => none

/-- The paths whose deletion is only announced by a list of cleanup actions. -/
def wouldLogPaths (acts : List fsAction) : List String :=
  acts.filterMap fun a => match a with | .removeAll _ => none | .wouldLog p => some p

/-! ## WIP registry, signal handler and the worker step

The WIP registry (a Go map guarded by `wipJobMutex`) is modelled as an
association list; Go map iteration order is irrelevant here because removals
commute.  The set of regular files present on disk is modelled as a
`List String` of paths; `os.Remove` drops a path (removing a missing path is
the ignored-error case), and a successful write inserts one.  Lock and unlock
operations have no observable effect in this sequential model. -/

structure transformationJob where
  filename : String
  sourceFilepath : String
  thumbnailFilepath : String
  fullsizeFilepath : String
  originalFilepath : String
deriving DecidableEq, Repr, Inhabited

/-- `os.Remove`: the path is gone afterwards; errors (path absent) ignored. -/
def osRemove (fs : List String) (p : String) : List String :=
  fs.filter (fun q => q ≠ p)

/-- A successful file write: the path is present afterwards. -/
def osWrite (fs : List String) (p : String) : List String :=
  if fs.contains p then fs else p :: fs

/-- Go map insert `wipJobs[k] = v`. -/
def wipSet (m : List (String × transformationJob)) (k : String) (v : transformationJob) :
    List (String × transformationJob) :=
  (k, v) :: m.filter (fun kv => kv.1 ≠ k)

/-- Go map lookup `wipJobs[k]`: the zero-value job (all fields empty) when the
key is absent. -/
def wipGet (m : List (String × transformationJob)) (k : String) : transformationJob :=
  match m.find? (fun kv => kv.1 = k) with
  | some kv => kv.2
  | none => default

/-- Go map removal `delete(wipJobs, k)`. -/
def wipDelete (m : List (String × transformationJob)) (k : String) :
    List (String × transformationJob) :=
  m.filter (fun kv => kv.1 ≠ k)

/-- `signalHandler`, after a signal arrives: under the registry lock, remove
the thumbnail, full-size and original output paths of every registered job
(best effort), then `exit(0)`.  Result: the remaining filesystem paths and
the exit code. -/
def signalHandler (wipJobs : List (String × transformationJob)) (fs : List String) :
    List String × Nat :=
  (wipJobs.foldl (fun acc kv =>
     osRemove (osRemove (osRemove acc kv.2.thumbnailFilepath) kv.2.fullsizeFilepath)
       kv.2.originalFilepath) fs, 0)

/-- State a transformation worker acts on: the WIP registry, the on-disk
paths, and the progress-bar counter. -/
structure workerState where
  wipJobs : List (String × transformationJob)
  fs : List String
  progress : Nat
deriving DecidableEq, Repr

/-- Outcomes of the external collaborators for one job: whether
`transformImage` / `transformVideo` / `createOriginal` return a nil error,
and which output paths a failed transformation had already written before
returning its error. -/
structure collaboratorOutcomes where
  imageOk : Bool
  videoOk : Bool
  originalOk : Bool
  partialWrites : List String
deriving DecidableEq, Repr

/-- `cleanWipFiles`: under the registry lock, remove the three output paths
of the job registered under `sourceFilepath` and delete its registry entry. -/
def cleanWipFiles (sourceFilepath : String) (st : workerState) : workerState :=
  let job := wipGet st.wipJobs sourceFilepath
  { st with
    fs := osRemove (osRemove (osRemove st.fs job.thumbnailFilepath) job.fullsizeFilepath)
      job.originalFilepath,
    wipJobs := wipDelete st.wipJobs sourceFilepath }

/-- The tail of `transformFile` after a successful transformation: create
the original (a symlink), clean up on its failure, otherwise advance the
progress bar and deregister the job. -/
def transformFileTail (thisJob : transformationJob) (hasProgressBar : Bool)
    (oc : collaboratorOutcomes) (st : workerState) : workerState × Bool :=
  if !oc.originalOk then
    let st2 := cleanWipFiles thisJob.sourceFilepath st
    ({ st2 with progress := if hasProgressBar then st2.progress + 1 else st2.progress }, false)
  else
    let st2 : workerState := { st with fs := osWrite st.fs thisJob.originalFilepath }
    let st3 : workerState := { st2 with progress := if hasProgressBar then st2.progress + 1 else st2.progress }
    ({ st3 with wipJobs := wipDelete st3.wipJobs thisJob.sourceFilepath }, false)

/-- `transformFile`: one worker iteration on a dequeued job.  `hasProgressBar`
models `progressBar != nil`.  Returns the final state and whether a fatal
`exit(1)` occurred (only for a file that is neither image nor video). -/
def transformFile (thisJob : transformationJob) (hasProgressBar : Bool)
    (oc : collaboratorOutcomes) (st : workerState) : workerState × Bool :=
  let st1 : workerState := { st with wipJobs := wipSet st.wipJobs thisJob.sourceFilepath thisJob }
  if isImageFile thisJob.filename then
    if !oc.imageOk then
      let stE : workerState := { st1 with fs := oc.partialWrites.foldl osWrite st1.fs }
      let st2 := cleanWipFiles thisJob.sourceFilepath stE
      ({ st2 with progress := if hasProgressBar then st2.progress + 1 else st2.progress }, false)
    else
      transformFileTail thisJob hasProgressBar oc
        { st1 with fs := osWrite (osWrite st1.fs thisJob.fullsizeFilepath) thisJob.thumbnailFilepath }
  else if isVideoFile thisJob.filename then
    if !oc.videoOk then
      let stE : workerState := { st1 with fs := oc.partialWrites.foldl osWrite st1.fs }
      let st2 := cleanWipFiles thisJob.sourceFilepath stE
      ({ st2 with progress := if hasProgressBar then st2.progress + 1 else st2.progress }, false)
    else
      transformFileTail thisJob hasProgressBar oc
        { st1 with fs := osWrite (osWrite st1.fs thisJob.fullsizeFilepath) thisJob.thumbnailFilepath }
  else
    (st1, true)


/-- The startup of the current `main` up to and including reconciliation:
scan the source tree, scan the gallery tree (dummy tree when the gallery
does not exist yet), then compare.  The only step preceding this in `main`
is `validateSourceAndGallery`, which checks that the argument paths are
directories and nothing else; this iteration of the program performs no
reserved-name validation of the source tree before scanning. -/
def mainPhase1 (sourceRoot : fsEntry) (galleryRoot : Option fsEntry)
    (sourceAbs galleryAbs : String) (noVideos : Bool) (config : configuration) :
    Except String (directory × directory) :=
  match createDirectoryTree sourceRoot sourceAbs "" noVideos with
  | .error msg => .error msg
  | .ok source =>
    match createDirectoryTreeRoot galleryRoot galleryAbs noVideos with
    | .error msg => .error msg
    | .ok gallery => .ok (compareDirectoryTrees source gallery config)

/-! ## Specification-side definitions

These definitions follow the wording of the specification (not the code) and
are used to state the claims about the code-derived functions above. -/

/-- A derived match in the spec's sense: a file living in a subdirectory of
the gallery directory that carries the given reserved name, whose stripped
basename equals the given basename. -/
def derivedMatch (dirName basename : String) (gallery : directory) (t : file) : Prop :=
  ∃ sd ∈ gallery.subdirectories, sd.name = dirName ∧ t ∈ sd.files ∧ stripExtension t.name = basename

mutual
/-- All files of a tree: the root directory's files and, recursively, those
of every subdirectory. -/
def allFiles : directory → List file
  | .mk _ _ _ _ fs subs _ => fs ++ allFilesList subs

def allFilesList : List directory → List file
  | [] => []
  | d :: ds => allFiles d ++ allFilesList ds
end

mutual
/-- All directory nodes of a tree: the root and, recursively, every node of
every subdirectory. -/
def subNodes : directory → List directory
  | .mk n rp ap mt fs subs ex => .mk n rp ap mt fs subs ex :: subNodesList subs

def subNodesList : List directory → List directory
  | [] => []
  | d :: ds => subNodes d ++ subNodesList ds
end

/-- Frame relation on files: every field except the up-to-date flag is
unchanged, and the flag can only go from false to true. -/
def fileFrame (f f' : file) : Prop :=
  f'.name = f.name ∧ f'.relPath = f.relPath ∧ f'.absPath = f.absPath ∧
  f'.modTime = f.modTime ∧ (f.exists' = true → f'.exists' = true)

mutual
/-- Frame relation on directory trees: every field except the up-to-date
flags is unchanged, the list structure (lengths and positions) is preserved,
and all flags move only from false to true. -/
def dirFrame : directory → directory → Prop
  | .mk n rp ap mt fs subs ex, .mk n' rp' ap' mt' fs' subs' ex' =>
    n' = n ∧ rp' = rp ∧ ap' = ap ∧ mt' = mt ∧
    List.Forall₂ fileFrame fs fs' ∧ dirListFrame subs subs' ∧ (ex = true → ex' = true)

def dirListFrame : List directory → List directory → Prop
  | [], [] => True
  | d :: ds, d' :: ds' => dirFrame d d' ∧ dirListFrame ds ds'
  | _, _ => False
end

/-- The list of derived matches (spec-side, computable form of
`derivedMatch`): all files of all subdirectories carrying the reserved name
whose stripped basename equals the given one, in tree order. -/
def derivedMatchesIn (dirName basename : String) (subs : List directory) : List file :=
  ((subs.filter (fun sd => sd.name = dirName)).map
    (fun sd => sd.files.filter (fun t => stripExtension t.name = basename))).flatten

/-- `derivedMatchesIn` over a gallery directory's subdirectories. -/
def derivedMatches (dirName basename : String) (gallery : directory) : List file :=
  derivedMatchesIn dirName basename gallery.subdirectories

/-! ## Concrete example inputs used by counterexamples and witnesses -/

def c1SourceFile : file := { name := "a.jpg", relPath := "a.jpg", absPath := "/src/a.jpg", modTime := 5, exists' := false }

def c1ThumbFile : file := { name := "a.jpg", relPath := "_thumbnail/a.jpg", absPath := "/gal/_thumbnail/a.jpg", modTime := 5, exists' := false }

def c1FullFile : file := { name := "a.jpg", relPath := "_fullsize/a.jpg", absPath := "/gal/_fullsize/a.jpg", modTime := 9, exists' := false }

def c1OrigFile : file := { name := "a.jpg", relPath := "_original/a.jpg", absPath := "/gal/_original/a.jpg", modTime := 9, exists' := false }

def c1Source : directory := .mk "src" "" "/src" 0 [c1SourceFile] [] false

def c1Gallery : directory :=
  .mk "gal" "" "/gal" 0 []
    [.mk "_thumbnail" "_thumbnail" "/gal/_thumbnail" 0 [c1ThumbFile] [] false,
     .mk "_fullsize" "_fullsize" "/gal/_fullsize" 0 [c1FullFile] [] false,
     .mk "_original" "_original" "/gal/_original" 0 [c1OrigFile] [] false] false

def c4SourceRoot : fsEntry :=
  .dirE "src" 0 true
    [.dirE "_thumbnail" 0 true [.fileE "a.jpg" 1],
     .fileE "b.jpg" 2]

def c5Root : fsEntry :=
  .dirE "src" 0 true
    [.dirE "locked" 0 false [.fileE "x.jpg" 1],
     .fileE "a.jpg" 2]

def c6Source : directory :=
  .mk "src" "" "/src" 0 [{ name := "a.jpg", relPath := "a.jpg", absPath := "/src/a.jpg", modTime := 1, exists' := true }] [] true

def c6Gallery : directory := .mk "gal" "" "/gal" 0 [] [] true

def c9SourceFile : file := { name := "a.jpg", relPath := "a.jpg", absPath := "/src/a.jpg", modTime := 100, exists' := false }

def c9ThumbFile : file := { name := "a.jpg", relPath := "_thumbnail/a.jpg", absPath := "/gal/_thumbnail/a.jpg", modTime := 5, exists' := false }

def c9Source : directory := .mk "src" "" "/src" 0 [c9SourceFile] [] false

def c9Gallery : directory :=
  .mk "gal" "" "/gal" 0 []
    [.mk "_thumbnail" "_thumbnail" "/gal/_thumbnail" 0 [c9ThumbFile] [] false] false

def c3Job : transformationJob :=
  { filename := "a.jpg", sourceFilepath := "/src/a.jpg",
    thumbnailFilepath := "/gal/_thumbnail/a.jpg", fullsizeFilepath := "/gal/_fullsize/a.jpg",
    originalFilepath := "/gal/_original/a.jpg" }

def c3State : workerState := { wipJobs := [], fs := ["/gal/other.jpg"], progress := 3 }

def c3Outcomes : collaboratorOutcomes :=
  { imageOk := false, videoOk := true, originalOk := true, partialWrites := ["/gal/_fullsize/a.jpg"] }

/-! ## Infrastructure lemmas -/

/-- Structural induction for `directory` through the nested subdirectory
list. -/
theorem directory.treeInduction (P : directory → Prop)
    (ih : ∀ n rp ap mt fs subs ex, (∀ d ∈ subs, P d) → P (.mk n rp ap mt fs subs ex)) :
    ∀ d, P d
  | .mk n rp ap mt fs subs ex =>
    ih n rp ap mt fs subs ex (fun d _ => directory.treeInduction P ih d)
termination_by d => sizeOf d
decreasing_by
  rename_i hd
  have := List.sizeOf_lt_of_mem hd
  simp only [directory.mk.sizeOf_spec]
  omega

theorem countChangesList_eq (ds : List directory) (config : configuration) :
    countChangesList ds config = (ds.map (fun d => countChanges d config)).sum := by
  induction ds with
  | nil => simp [countChangesList]
  | cons d ds ihd => simp [countChangesList, ihd]

theorem allFilesList_eq (ds : List directory) :
    allFilesList ds = (ds.map allFiles).flatten := by
  induction ds with
  | nil => simp [allFilesList]
  | cons d ds ihd => simp [allFilesList, ihd]

theorem subNodesList_eq (ds : List directory) :
    subNodesList ds = (ds.map subNodes).flatten := by
  induction ds with
  | nil => simp [subNodesList]
  | cons d ds ihd => simp [subNodesList, ihd]

theorem cleanUpList_eq (ds : List directory) (dryRun : Bool) (config : configuration) :
    cleanUpList ds dryRun config = (ds.map (fun d => cleanUp d dryRun config)).flatten := by
  induction ds with
  | nil => simp [cleanUpList]
  | cons d ds ihd => simp [cleanUpList, ihd]

theorem compareSourceSubdirs_eq (config : configuration) (ds gs : List directory) :
    compareSourceSubdirs config ds gs =
      ds.map (fun sk =>
        if reservedDirectory sk.name config then sk
        else compareSourceDir config sk
          ((gs.map (fun g => g.subdirectories.filter (fun gl => gl.name = sk.name))).flatten)) := by
  induction ds with
  | nil => simp [compareSourceSubdirs]
  | cons d ds ihd => simp [compareSourceSubdirs, ihd]

theorem compareGallerySubdirs_eq (config : configuration) (ds ss : List directory) :
    compareGallerySubdirs config ds ss =
      ds.map (fun gl =>
        if gl.name = config.files.thumbnailDir ∨ gl.name = config.files.fullsizeDir ∨ gl.name = config.files.originalDir then
          markGallerySubdir ss gl
        else
          compareGalleryDir config gl
            ((ss.map (fun s => s.subdirectories.filter
               (fun sk => !reservedDirectory sk.name config && sk.name = gl.name))).flatten)) := by
  induction ds with
  | nil => simp [compareGallerySubdirs]
  | cons d ds ihd => simp [compareGallerySubdirs, ihd]

theorem lastMatch_isSome (basename : String) (fs : List file) :
    (lastMatch basename fs).isSome = true ↔ ∃ f ∈ fs, stripExtension f.name = basename := by
  induction fs with
  | nil => simp [lastMatch]
  | cons f rest ih =>
    simp only [lastMatch, Option.isSome_or, Bool.or_eq_true, ih, List.mem_cons]
    constructor
    · rintro (⟨x, hx, hpx⟩ | hsome)
      · exact ⟨x, Or.inr hx, hpx⟩
      · by_cases hp : stripExtension f.name = basename
        · exact ⟨f, Or.inl rfl, hp⟩
        · rw [if_neg hp] at hsome; simp at hsome
    · rintro ⟨x, rfl | hx, hpx⟩
      · right; rw [if_pos hpx]; rfl
      · exact Or.inl ⟨x, hx, hpx⟩

theorem lastMatch_mem (basename : String) (fs : List file) (t : file)
    (h : lastMatch basename fs = some t) : t ∈ fs ∧ stripExtension t.name = basename := by
  induction fs with
  | nil => simp [lastMatch] at h
  | cons f rest ih =>
    simp only [lastMatch, Option.or_eq_some] at h
    rcases h with h | ⟨-, h⟩
    · obtain ⟨hm, hb⟩ := ih h
      exact ⟨List.mem_cons_of_mem f hm, hb⟩
    · by_cases hp : stripExtension f.name = basename
      · rw [if_pos hp] at h
        cases h
        exact ⟨List.mem_cons_self _ rest, hp⟩
      · rw [if_neg hp] at h
        exact absurd h (by simp)

theorem lastReservedMatch_isSome (dirName basename : String) (subs : List directory) :
    (lastReservedMatch dirName basename subs).isSome = true ↔
      ∃ sd ∈ subs, sd.name = dirName ∧ ∃ f ∈ sd.files, stripExtension f.name = basename := by
  induction subs with
  | nil => simp [lastReservedMatch]
  | cons sd rest ih =>
    simp only [lastReservedMatch, Option.isSome_or, Bool.or_eq_true, ih, List.mem_cons]
    constructor
    · rintro (⟨x, hx, hn, hf⟩ | hsome)
      · exact ⟨x, Or.inr hx, hn, hf⟩
      · by_cases hn : sd.name = dirName
        · rw [if_pos hn] at hsome
          exact ⟨sd, Or.inl rfl, hn, (lastMatch_isSome basename sd.files).mp hsome⟩
        · rw [if_neg hn] at hsome; simp at hsome
    · rintro ⟨x, rfl | hx, hn, hf⟩
      · right; rw [if_pos hn]
        exact (lastMatch_isSome basename x.files).mpr hf
      · exact Or.inl ⟨x, hx, hn, hf⟩

theorem lastReservedMatch_mem (dirName basename : String) (subs : List directory) (t : file)
    (h : lastReservedMatch dirName basename subs = some t) :
    ∃ sd ∈ subs, sd.name = dirName ∧ t ∈ sd.files ∧ stripExtension t.name = basename := by
  induction subs with
  | nil => simp [lastReservedMatch] at h
  | cons sd rest ih =>
    simp only [lastReservedMatch, Option.or_eq_some] at h
    rcases h with h | ⟨-, h⟩
    · obtain ⟨x, hx, hn, hf⟩ := ih h
      exact ⟨x, List.mem_cons_of_mem sd hx, hn, hf⟩
    · by_cases hn : sd.name = dirName
      · rw [if_pos hn] at h
        obtain ⟨hm, hb⟩ := lastMatch_mem basename sd.files t h
        exact ⟨sd, List.mem_cons_self sd rest, hn, hm, hb⟩
      · rw [if_neg hn] at h
        exact absurd h (by simp)

theorem derivedMatchesIn_mem (dirName basename : String) (subs : List directory) (t : file) :
    t ∈ derivedMatchesIn dirName basename subs ↔
      ∃ sd ∈ subs, sd.name = dirName ∧ t ∈ sd.files ∧ stripExtension t.name = basename := by
  simp only [derivedMatchesIn, List.mem_flatten, List.mem_map, List.mem_filter]
  constructor
  · rintro ⟨l, ⟨sd, ⟨hsd, hn⟩, rfl⟩, ht⟩
    obtain ⟨hm, hb⟩ := List.mem_filter.mp ht
    exact ⟨sd, hsd, by simpa using hn, hm, by simpa using hb⟩
  · rintro ⟨sd, hsd, hn, hm, hb⟩
    exact ⟨sd.files.filter (fun t => stripExtension t.name = basename), ⟨sd, ⟨hsd, by simpa using hn⟩, rfl⟩,
      List.mem_filter.mpr ⟨hm, by simpa using hb⟩⟩

/-! ## Claims -/

/-- C7: for every directory tree, `countChanges` returns the sum, over the
root directory and recursively over all subdirectories, of the number of
files whose up-to-date flag is false and whose name is not a reserved asset
file; files with the flag true and reserved asset files contribute
nothing. -/
theorem C7_countChanges_is_tree_sum (d : directory) (config : configuration) :
    countChanges d config =
      ((allFiles d).filter (fun f => !f.exists' && !reservedFile f.name config)).length := by
  induction d using directory.treeInduction with
  | ih n rp ap mt fs subs ex ih =>
    have hlist : ∀ ds, (∀ d ∈ ds, countChanges d config =
        ((allFiles d).filter (fun f => !f.exists' && !reservedFile f.name config)).length) →
        countChangesList ds config =
          ((allFilesList ds).filter (fun f => !f.exists' && !reservedFile f.name config)).length := by
      intro ds
      induction ds with
      | nil => intro _; simp [countChangesList, allFilesList]
      | cons d ds ihds =>
        intro hall
        simp only [countChangesList, allFilesList, List.filter_append, List.length_append]
        rw [hall d (List.mem_cons_self d ds), ihds (fun d' hd' => hall d' (List.mem_cons_of_mem d hd'))]
    simp only [countChanges, allFiles, List.filter_append, List.length_append,
      List.countP_eq_length_filter]
    rw [hlist subs ih]

/-- C2: on a termination signal, for every job still registered in the WIP
registry the handler removes that job's thumbnail, full-size and original
output paths (best effort) and then terminates with exit code 0; a path
survives exactly when it was present and is not an output path of any
registered job, so jobs never registered have nothing removed. -/
theorem C2_signalHandler_spec (wipJobs : List (String × transformationJob)) (fs : List String)
    (p : String) :
    (p ∈ (signalHandler wipJobs fs).1 ↔
      p ∈ fs ∧ ∀ kv ∈ wipJobs,
        p ≠ kv.2.thumbnailFilepath ∧ p ≠ kv.2.fullsizeFilepath ∧ p ≠ kv.2.originalFilepath) ∧
    (signalHandler wipJobs fs).2 = 0 := by
  refine ⟨?_, rfl⟩
  simp only [signalHandler]
  induction wipJobs generalizing fs with
  | nil => simp
  | cons kv rest ih =>
    rw [List.foldl_cons, ih]
    simp only [osRemove, List.mem_filter, decide_eq_true_eq, List.forall_mem_cons]
    tauto

theorem wipGet_set (m : List (String × transformationJob)) (k : String) (v : transformationJob) :
    wipGet (wipSet m k v) k = v := by
  simp only [wipGet, wipSet]
  rw [List.find?_cons_of_pos _ (by simp)]

theorem not_mem_osRemove_self (l : List String) (x : String) : x ∉ osRemove l x := by
  simp [osRemove, List.mem_filter]

theorem not_mem_osRemove (l : List String) (q x : String) (h : x ∉ l) : x ∉ osRemove l q :=
  fun hmem => h (List.mem_filter.mp hmem).1

theorem wipDelete_not_key (m : List (String × transformationJob)) (k : String) :
    ∀ kv ∈ wipDelete m k, kv.1 ≠ k := by
  intro kv h
  simpa using (List.mem_filter.mp h).2

/-- The state after `cleanWipFiles` run on a registry whose entry for the key
is the given job: all three output paths are gone and no binding for the key
remains. -/
theorem cleanWipFiles_spec (k : String) (v : transformationJob) (m : List (String × transformationJob))
    (l : List String) (pr : Nat)
    (hget : wipGet m k = v) :
    (cleanWipFiles k { wipJobs := m, fs := l, progress := pr }).progress = pr ∧
    (∀ kv ∈ (cleanWipFiles k { wipJobs := m, fs := l, progress := pr }).wipJobs, kv.1 ≠ k) ∧
    v.thumbnailFilepath ∉ (cleanWipFiles k { wipJobs := m, fs := l, progress := pr }).fs ∧
    v.fullsizeFilepath ∉ (cleanWipFiles k { wipJobs := m, fs := l, progress := pr }).fs ∧
    v.originalFilepath ∉ (cleanWipFiles k { wipJobs := m, fs := l, progress := pr }).fs := by
  simp only [cleanWipFiles, hget]
  refine ⟨trivial, wipDelete_not_key m k, ?_, ?_, ?_⟩
  · exact not_mem_osRemove _ _ _ (not_mem_osRemove _ _ _ (not_mem_osRemove_self _ _))
  · exact not_mem_osRemove _ _ _ (not_mem_osRemove_self _ _)
  · exact not_mem_osRemove_self _ _

/-- C3: for every dequeued transformation job whose image or video
transformation (or original-creation step) returns an error, the worker
deletes the job's thumbnail, full-size and original output paths, removes
the job's entry from the WIP registry, advances the progress indicator, and
returns without a fatal exit, so the run continues with the remaining
jobs. -/
theorem C3_transformFile_failure_is_nonfatal (thisJob : transformationJob) (st : workerState)
    (oc : collaboratorOutcomes)
    (herr : (isImageFile thisJob.filename = true ∧ oc.imageOk = false)
          ∨ (isImageFile thisJob.filename = false ∧ isVideoFile thisJob.filename = true ∧ oc.videoOk = false)
          ∨ ((isImageFile thisJob.filename = true ∧ oc.imageOk = true
              ∨ isImageFile thisJob.filename = false ∧ isVideoFile thisJob.filename = true ∧ oc.videoOk = true)
             ∧ oc.originalOk = false)) :
    (transformFile thisJob true oc st).2 = false ∧
    (transformFile thisJob true oc st).1.progress = st.progress + 1 ∧
    (∀ kv ∈ (transformFile thisJob true oc st).1.wipJobs, kv.1 ≠ thisJob.sourceFilepath) ∧
    thisJob.thumbnailFilepath ∉ (transformFile thisJob true oc st).1.fs ∧
    thisJob.fullsizeFilepath ∉ (transformFile thisJob true oc st).1.fs ∧
    thisJob.originalFilepath ∉ (transformFile thisJob true oc st).1.fs := by
  rcases herr with ⟨himg, hio⟩ | ⟨hni, hv, hvo⟩ | ⟨hok, horig⟩
  · simp only [transformFile, himg, hio, if_pos, Bool.not_false, if_true]
    obtain ⟨h1, h2, h3, h4, h5⟩ := cleanWipFiles_spec thisJob.sourceFilepath thisJob _
      ((oc.partialWrites.foldl osWrite (st.fs))) st.progress (wipGet_set st.wipJobs _ _)
    exact ⟨trivial, by simp [h1], h2, h3, h4, h5⟩
  · simp only [transformFile, hni, hvo, hv, Bool.not_false, if_true, Bool.false_eq_true, if_false]
    obtain ⟨h1, h2, h3, h4, h5⟩ := cleanWipFiles_spec thisJob.sourceFilepath thisJob _
      ((oc.partialWrites.foldl osWrite (st.fs))) st.progress (wipGet_set st.wipJobs _ _)
    exact ⟨trivial, by simp [h1], h2, h3, h4, h5⟩
  · rcases hok with ⟨himg, hio⟩ | ⟨hni, hv, hvo⟩
    · simp only [transformFile, transformFileTail, himg, hio, horig, Bool.not_true,
        Bool.false_eq_true, if_false, if_true, Bool.not_false]
      obtain ⟨h1, h2, h3, h4, h5⟩ := cleanWipFiles_spec thisJob.sourceFilepath thisJob _
        (osWrite (osWrite st.fs thisJob.fullsizeFilepath) thisJob.thumbnailFilepath) st.progress
        (wipGet_set st.wipJobs _ _)
      exact ⟨trivial, by simp [h1], h2, h3, h4, h5⟩
    · simp only [transformFile, transformFileTail, hni, hv, hvo, horig, Bool.not_true,
        Bool.false_eq_true, if_false, if_true, Bool.not_false]
      obtain ⟨h1, h2, h3, h4, h5⟩ := cleanWipFiles_spec thisJob.sourceFilepath thisJob _
        (osWrite (osWrite st.fs thisJob.fullsizeFilepath) thisJob.thumbnailFilepath) st.progress
        (wipGet_set st.wipJobs _ _)
      exact ⟨trivial, by simp [h1], h2, h3, h4, h5⟩

/-- C3 (witness): the theorem applied to a concrete failing image job. -/
theorem C3_witness :
    ((isImageFile c3Job.filename = true ∧ c3Outcomes.imageOk = false)
      ∨ (isImageFile c3Job.filename = false ∧ isVideoFile c3Job.filename = true ∧ c3Outcomes.videoOk = false)
      ∨ ((isImageFile c3Job.filename = true ∧ c3Outcomes.imageOk = true
          ∨ isImageFile c3Job.filename = false ∧ isVideoFile c3Job.filename = true ∧ c3Outcomes.videoOk = true)
         ∧ c3Outcomes.originalOk = false)) ∧
    ((transformFile c3Job true c3Outcomes c3State).2 = false ∧
     (transformFile c3Job true c3Outcomes c3State).1.progress = c3State.progress + 1 ∧
     (∀ kv ∈ (transformFile c3Job true c3Outcomes c3State).1.wipJobs, kv.1 ≠ c3Job.sourceFilepath) ∧
     c3Job.thumbnailFilepath ∉ (transformFile c3Job true c3Outcomes c3State).1.fs ∧
     c3Job.fullsizeFilepath ∉ (transformFile c3Job true c3Outcomes c3State).1.fs ∧
     c3Job.originalFilepath ∉ (transformFile c3Job true c3Outcomes c3State).1.fs) :=
  ⟨Or.inl ⟨by decide, by decide⟩,
   C3_transformFile_failure_is_nonfatal c3Job c3State c3Outcomes (Or.inl ⟨by decide, by decide⟩)⟩

/-- C6 (counterexample): a source and gallery directory with every up-to-date
flag true, cleanup not requested — the claim says `hasDirectoryChanged` must
return false, but when the directory's `index.html` does not exist it
returns true. -/
theorem C6_counterexample :
    (∀ f ∈ c6Source.files, f.exists' = true) ∧
    (∀ d ∈ c6Source.subdirectories, d.exists' = true) ∧
    hasDirectoryChanged c6Source c6Gallery false initializeConfig (fun _ => false) = true := by
  refine ⟨by decide, by decide, by rfl⟩

/-- C6 (amended): `hasDirectoryChanged` returns true exactly when the source
directory has a file or subdirectory that is not up to date, or cleanup is
requested and the gallery directory has a non-reserved file or any
subdirectory that is not up to date, or the directory's `index.html` does
not exist in the gallery; otherwise it returns false. -/
theorem C6_hasDirectoryChanged_amended (source gallery : directory) (cleanUpFlag : Bool)
    (config : configuration) (fsExists : String → Bool) :
    hasDirectoryChanged source gallery cleanUpFlag config fsExists = true ↔
      (∃ f ∈ source.files, f.exists' = false) ∨
      (∃ d ∈ source.subdirectories, d.exists' = false) ∨
      (cleanUpFlag = true ∧
        ((∃ f ∈ gallery.files, reservedFile f.name config = false ∧ f.exists' = false) ∨
         (∃ d ∈ gallery.subdirectories, d.exists' = false))) ∨
      fsExists (goJoin3 gallery.absPath source.relPath config.assets.htmlFile) = false := by
  simp only [hasDirectoryChanged]
  split_ifs with h1 h2 h3 h4 <;>
    simp_all [List.any_eq_true, Bool.not_eq_true', Bool.and_eq_true, Bool.or_eq_true]

theorem removedPaths_append (a b : List fsAction) :
    removedPaths (a ++ b) = removedPaths a ++ removedPaths b :=
  List.filterMap_append a b _

theorem wouldLogPaths_append (a b : List fsAction) :
    wouldLogPaths (a ++ b) = wouldLogPaths a ++ wouldLogPaths b :=
  List.filterMap_append a b _

theorem removedPaths_map_wouldLog {A : Type} (j : A → String) (l : List A) :
    removedPaths (l.map (fun x => fsAction.wouldLog (j x))) = [] := by
  induction l <;> simp_all [removedPaths]

theorem wouldLogPaths_map_wouldLog {A : Type} (j : A → String) (l : List A) :
    wouldLogPaths (l.map (fun x => fsAction.wouldLog (j x))) = l.map j := by
  induction l <;> simp_all [wouldLogPaths]

theorem removedPaths_map_removeAll {A : Type} (j : A → String) (l : List A) :
    removedPaths (l.map (fun x => fsAction.removeAll (j x))) = l.map j := by
  induction l <;> simp_all [removedPaths]

theorem cleanDirectory_dry_removed (g : directory) (config : configuration) :
    removedPaths (cleanDirectory g true config) = [] := by
  simp [cleanDirectory, removedPaths_append, removedPaths_map_wouldLog]

theorem cleanDirectory_log_eq (g : directory) (config : configuration) :
    wouldLogPaths (cleanDirectory g true config) = removedPaths (cleanDirectory g false config) := by
  simp [cleanDirectory, wouldLogPaths_append, removedPaths_append,
    wouldLogPaths_map_wouldLog, removedPaths_map_removeAll]

theorem cleanDirectory_removed_mem (g : directory) (config : configuration) (p : String) :
    p ∈ removedPaths (cleanDirectory g false config) ↔
      ((∃ f ∈ g.files, f.exists' = false ∧ reservedFile f.name config = false ∧ p = goJoin g.absPath f.name) ∨
       (∃ d ∈ g.subdirectories, reservedDirectory d.name config = false ∧ d.exists' = false ∧ p = goJoin g.absPath d.name)) := by
  have hsplit : removedPaths (cleanDirectory g false config) =
      (g.files.filter (fun f => !f.exists' && !reservedFile f.name config)).map (fun f => goJoin g.absPath f.name) ++
      (g.subdirectories.filter (fun d => !reservedDirectory d.name config && !d.exists')).map (fun d => goJoin g.absPath d.name) := by
    simp [cleanDirectory, removedPaths_append, removedPaths_map_removeAll]
  rw [hsplit]
  simp only [List.mem_append, List.mem_map, List.mem_filter, Bool.and_eq_true, Bool.not_eq_true']
  constructor
  · rintro (⟨f, ⟨hf, h1, h2⟩, rfl⟩ | ⟨d, ⟨hd, h1, h2⟩, rfl⟩)
    · exact Or.inl ⟨f, hf, h1, h2, rfl⟩
    · exact Or.inr ⟨d, hd, h1, h2, rfl⟩
  · rintro (⟨f, hf, h1, h2, rfl⟩ | ⟨d, hd, h1, h2, rfl⟩)
    · exact Or.inl ⟨f, ⟨hf, h1, h2⟩, rfl⟩
    · exact Or.inr ⟨d, ⟨hd, h1, h2⟩, rfl⟩

theorem cleanUp_dry_removed (config : configuration) (g : directory) :
    removedPaths (cleanUp g true config) = [] := by
  induction g using directory.treeInduction with
  | ih n rp ap mt fs subs ex ih =>
    have hlist : ∀ ds, (∀ d ∈ ds, removedPaths (cleanUp d true config) = []) →
        removedPaths (cleanUpList ds true config) = [] := by
      intro ds
      induction ds with
      | nil => intro _; simp [cleanUpList, removedPaths]
      | cons d ds ihds =>
        intro hall
        simp only [cleanUpList, removedPaths_append, hall d (List.mem_cons_self d ds),
          ihds (fun d' hd' => hall d' (List.mem_cons_of_mem d hd')), List.append_nil]
    simp only [cleanUp, removedPaths_append, cleanDirectory_dry_removed, hlist subs ih,
      List.append_nil]

theorem cleanUp_log_eq (config : configuration) (g : directory) :
    wouldLogPaths (cleanUp g true config) = removedPaths (cleanUp g false config) := by
  induction g using directory.treeInduction with
  | ih n rp ap mt fs subs ex ih =>
    have hlist : ∀ ds, (∀ d ∈ ds, wouldLogPaths (cleanUp d true config) = removedPaths (cleanUp d false config)) →
        wouldLogPaths (cleanUpList ds true config) = removedPaths (cleanUpList ds false config) := by
      intro ds
      induction ds with
      | nil => intro _; simp [cleanUpList, removedPaths, wouldLogPaths]
      | cons d ds ihds =>
        intro hall
        simp only [cleanUpList, removedPaths_append, wouldLogPaths_append,
          hall d (List.mem_cons_self d ds),
          ihds (fun d' hd' => hall d' (List.mem_cons_of_mem d hd'))]
    simp only [cleanUp, removedPaths_append, wouldLogPaths_append, cleanDirectory_log_eq,
      hlist subs ih]

/-- C8: `cleanUp` deletes exactly the stale entries.  In dry-run mode nothing
is deleted and the deletions that would happen are only logged; otherwise a
path is deleted exactly when some visited gallery directory (the root or any
recursive subdirectory) contains a file that is not up to date and not a
reserved asset file with that joined path, or a non-reserved subdirectory
that is not up to date with that joined path (such a subdirectory is removed
as a whole subtree by `os.RemoveAll`); up-to-date entries, reserved asset
files and reserved subdirectories are never deleted. -/
theorem C8_cleanUp_spec (config : configuration) (g : directory) (p : String) :
    removedPaths (cleanUp g true config) = [] ∧
    wouldLogPaths (cleanUp g true config) = removedPaths (cleanUp g false config) ∧
    (p ∈ removedPaths (cleanUp g false config) ↔
      ∃ n ∈ subNodes g,
        ((∃ f ∈ n.files, f.exists' = false ∧ reservedFile f.name config = false ∧ p = goJoin n.absPath f.name) ∨
         (∃ d ∈ n.subdirectories, reservedDirectory d.name config = false ∧ d.exists' = false ∧ p = goJoin n.absPath d.name))) := by
  refine ⟨cleanUp_dry_removed config g, cleanUp_log_eq config g, ?_⟩
  induction g using directory.treeInduction with
  | ih n rp ap mt fs subs ex ih =>
    have hlist : ∀ ds, (∀ d ∈ ds, (p ∈ removedPaths (cleanUp d false config) ↔
        ∃ m ∈ subNodes d, ((∃ f ∈ m.files, f.exists' = false ∧ reservedFile f.name config = false ∧ p = goJoin m.absPath f.name) ∨
         (∃ d2 ∈ m.subdirectories, reservedDirectory d2.name config = false ∧ d2.exists' = false ∧ p = goJoin m.absPath d2.name)))) →
        (p ∈ removedPaths (cleanUpList ds false config) ↔
        ∃ m ∈ subNodesList ds, ((∃ f ∈ m.files, f.exists' = false ∧ reservedFile f.name config = false ∧ p = goJoin m.absPath f.name) ∨
         (∃ d2 ∈ m.subdirectories, reservedDirectory d2.name config = false ∧ d2.exists' = false ∧ p = goJoin m.absPath d2.name))) := by
      intro ds
      induction ds with
      | nil => intro _; simp [cleanUpList, subNodesList, removedPaths]
      | cons d ds ihds =>
        intro hall
        simp only [cleanUpList, subNodesList, removedPaths_append, List.mem_append]
        rw [hall d (List.mem_cons_self d ds), ihds (fun d' hd' => hall d' (List.mem_cons_of_mem d hd'))]
        constructor
        · rintro (⟨m, hm, hc⟩ | ⟨m, hm, hc⟩)
          · exact ⟨m, Or.inl hm, hc⟩
          · exact ⟨m, Or.inr hm, hc⟩
        · rintro ⟨m, hm | hm, hc⟩
          · exact Or.inl ⟨m, hm, hc⟩
          · exact Or.inr ⟨m, hm, hc⟩
    simp only [cleanUp, subNodes, removedPaths_append, List.mem_append, List.mem_cons]
    rw [cleanDirectory_removed_mem, hlist subs ih]
    constructor
    · rintro (hroot | ⟨m, hm, hc⟩)
      · exact ⟨_, Or.inl rfl, hroot⟩
      · exact ⟨m, Or.inr hm, hc⟩
    · rintro ⟨m, rfl | hm, hc⟩
      · exact Or.inl hc
      · exact Or.inr ⟨m, hm, hc⟩

/-- C9: during reconciliation, every gallery-side file sitting in a reserved
subdirectory (thumbnail, full-size or original) whose stripped basename
matches some source file's basename in the compared directory is marked up
to date, regardless of the freshness outcome and regardless of whether the
other two derived matches exist. -/
theorem C9_derived_match_marked (config : configuration) (s g : directory) (h j : Nat)
    (sd : directory) (f : file)
    (hsd : g.subdirectories[h]? = some sd)
    (hname : sd.name = config.files.thumbnailDir ∨ sd.name = config.files.fullsizeDir ∨
             sd.name = config.files.originalDir)
    (hf : sd.files[j]? = some f)
    (hmatch : ∃ sf ∈ s.files, stripExtension sf.name = stripExtension f.name) :
    ∃ sd', (compareGalleryDir config g [s]).subdirectories[h]? = some sd' ∧
      sd'.files[j]? = some { f with exists' := true } := by
  cases g with
  | mk n rp ap mt fs subs ex =>
    simp only [directory.subdirectories] at hsd
    have hne : ([s] : List directory).isEmpty = false := rfl
    simp only [compareGalleryDir, hne, Bool.false_eq_true, if_false, directory.subdirectories]
    rw [compareGallerySubdirs_eq, List.getElem?_map, hsd]
    simp only [Option.map_some']
    refine ⟨_, rfl, ?_⟩
    rw [if_pos hname]
    cases sd with
    | mk n2 rp2 ap2 mt2 fs2 subs2 ex2 =>
      simp only [directory.files] at hf
      have hcond : (([s] : List directory).any
          (fun s' => s'.files.any fun sf => stripExtension sf.name = stripExtension f.name)) = true := by
        simp only [List.any_cons, List.any_nil, Bool.or_false, List.any_eq_true]
        obtain ⟨sf, hsf, hb⟩ := hmatch
        exact ⟨sf, hsf, by simp [hb]⟩
      simp only [markGallerySubdir, directory.files]
      rw [List.getElem?_map, hf]
      simp only [Option.map_some']
      split
      · rfl
      · rename_i hfalse
        exact absurd hcond hfalse

/-- C9 (witness): the theorem applied to a concrete pair where the thumbnail
match is older than the source file (freshness fails) and the full-size and
original matches are missing — the thumbnail file is still marked. -/
theorem C9_witness :
    ∃ sd', (compareGalleryDir initializeConfig c9Gallery [c9Source]).subdirectories[0]? = some sd' ∧
      sd'.files[0]? = some { c9ThumbFile with exists' := true } :=
  C9_derived_match_marked initializeConfig c9Source c9Gallery 0 0
    (.mk "_thumbnail" "_thumbnail" "/gal/_thumbnail" 0 [c9ThumbFile] [] false)
    c9ThumbFile (by rfl) (Or.inl (by decide)) (by rfl) ⟨c9SourceFile, by decide, by decide⟩

theorem fileFrame_refl (f : file) : fileFrame f f :=
  ⟨rfl, rfl, rfl, rfl, fun h => h⟩

theorem dirListFrame_refl_of (ds : List directory) (h : ∀ d ∈ ds, dirFrame d d) :
    dirListFrame ds ds := by
  induction ds with
  | nil => simp [dirListFrame]
  | cons d ds ihds =>
    exact ⟨h d (List.mem_cons_self d ds), ihds (fun d' hd' => h d' (List.mem_cons_of_mem d hd'))⟩

theorem dirFrame_refl (d : directory) : dirFrame d d := by
  induction d using directory.treeInduction with
  | ih n rp ap mt fs subs ex ih =>
    exact ⟨rfl, rfl, rfl, rfl, List.forall₂_same.mpr (fun f _ => fileFrame_refl f),
      dirListFrame_refl_of subs ih, fun h => h⟩

theorem filesFrame_map_mark (fs : List file) (c : file → Bool) :
    List.Forall₂ fileFrame fs (fs.map (fun sf => if c sf then { sf with exists' := true } else sf)) := by
  induction fs with
  | nil => simp
  | cons f rest ih =>
    refine List.Forall₂.cons ?_ ih
    by_cases hc : c f
    · simp only [hc, if_true]
      exact ⟨rfl, rfl, rfl, rfl, fun _ => rfl⟩
    · simp only [hc, Bool.false_eq_true, if_false]
      exact fileFrame_refl f

theorem markGallerySubdir_frame (ss : List directory) (sd : directory) :
    dirFrame sd (markGallerySubdir ss sd) := by
  cases sd with
  | mk n rp ap mt fs subs ex =>
    exact ⟨rfl, rfl, rfl, rfl, filesFrame_map_mark fs _,
      dirListFrame_refl_of subs (fun d _ => dirFrame_refl d), fun h => h⟩

theorem compareSourceDir_frame (config : configuration) (d : directory) :
    ∀ gs, dirFrame d (compareSourceDir config d gs) := by
  induction d using directory.treeInduction with
  | ih n rp ap mt fs subs ex ih =>
    intro gs
    by_cases hgs : gs.isEmpty
    · simp only [compareSourceDir, hgs, if_true]
      exact dirFrame_refl _
    · simp only [compareSourceDir, hgs, Bool.false_eq_true, if_false]
      refine ⟨rfl, rfl, rfl, rfl, filesFrame_map_mark fs _, ?_, fun _ => rfl⟩
      have hlist : ∀ ds, (∀ sk ∈ ds, ∀ gs', dirFrame sk (compareSourceDir config sk gs')) →
          dirListFrame ds (compareSourceSubdirs config ds gs) := by
        intro ds
        induction ds with
        | nil => intro _; simp [compareSourceSubdirs, dirListFrame]
        | cons sk sks ihsk =>
          intro hall
          refine ⟨?_, ihsk (fun d' hd' => hall d' (List.mem_cons_of_mem sk hd'))⟩
          by_cases hres : reservedDirectory sk.name config
          · simp only [compareSourceSubdirs, hres, if_true]
            exact dirFrame_refl sk
          · simp only [compareSourceSubdirs, hres, Bool.false_eq_true, if_false]
            exact hall sk (List.mem_cons_self sk sks) _
      exact hlist subs ih

theorem compareGalleryDir_frame (config : configuration) (d : directory) :
    ∀ ss, dirFrame d (compareGalleryDir config d ss) := by
  induction d using directory.treeInduction with
  | ih n rp ap mt fs subs ex ih =>
    intro ss
    by_cases hss : ss.isEmpty
    · simp only [compareGalleryDir, hss, if_true]
      exact dirFrame_refl _
    · simp only [compareGalleryDir, hss, Bool.false_eq_true, if_false]
      refine ⟨rfl, rfl, rfl, rfl, List.forall₂_same.mpr (fun f _ => fileFrame_refl f), ?_, fun _ => rfl⟩
      have hlist : ∀ ds, (∀ gl ∈ ds, ∀ ss', dirFrame gl (compareGalleryDir config gl ss')) →
          dirListFrame ds (compareGallerySubdirs config ds ss) := by
        intro ds
        induction ds with
        | nil => intro _; simp [compareGallerySubdirs, dirListFrame]
        | cons gl gls ihgl =>
          intro hall
          refine ⟨?_, ihgl (fun d' hd' => hall d' (List.mem_cons_of_mem gl hd'))⟩
          by_cases hres : gl.name = config.files.thumbnailDir ∨ gl.name = config.files.fullsizeDir ∨
              gl.name = config.files.originalDir
          · simp only [compareGallerySubdirs, hres, if_true]
            exact markGallerySubdir_frame ss gl
          · simp only [compareGallerySubdirs, hres, if_false]
            exact hall gl (List.mem_cons_self gl gls) _
      exact hlist subs ih

/-- C10: reconciliation only mutates the up-to-date flags, and only
monotonically.  After `compareDirectoryTrees`, in both trees every name,
relative path, absolute path, modification time and the whole list structure
of files and subdirectories are unchanged, and every up-to-date flag that
was true beforehand is still true. -/
theorem C10_compare_frame_monotone (config : configuration) (s g : directory) :
    dirFrame s (compareDirectoryTrees s g config).1 ∧
    dirFrame g (compareDirectoryTrees s g config).2 :=
  ⟨compareSourceDir_frame config s [g], compareGalleryDir_frame config g [s]⟩

theorem mem_len_le_one {A : Type} {l : List A} (h : l.length ≤ 1) {a b : A}
    (ha : a ∈ l) (hb : b ∈ l) : a = b := by
  match l with
  | [] => cases ha
  | [x] =>
    rw [List.mem_singleton.mp ha, List.mem_singleton.mp hb]
  | x :: y :: rest => simp at h

theorem derivedMatchesIn_ne_nil (dirName b : String) (subs : List directory) :
    derivedMatchesIn dirName b subs ≠ [] ↔
      ∃ sd ∈ subs, sd.name = dirName ∧ ∃ f ∈ sd.files, stripExtension f.name = b := by
  rw [Ne, List.eq_nil_iff_forall_not_mem]
  push_neg
  constructor
  · rintro ⟨t, ht⟩
    obtain ⟨sd, hsd, hn, hm, hb⟩ := (derivedMatchesIn_mem dirName b subs t).mp ht
    exact ⟨sd, hsd, hn, t, hm, hb⟩
  · rintro ⟨sd, hsd, hn, f, hf, hb⟩
    exact ⟨f, (derivedMatchesIn_mem dirName b subs f).mpr ⟨sd, hsd, hn, hf, hb⟩⟩

/-- The per-file decision of the reconciler, characterised against the
spec-side match lists, assuming the thumbnail match (the freshness oracle)
is unique. -/
theorem fileDecision_iff (config : configuration) (sf : file) (g : directory)
    (huniq : (derivedMatches config.files.thumbnailDir (stripExtension sf.name) g).length ≤ 1) :
    fileDecision config sf g = true ↔
      (derivedMatches config.files.fullsizeDir (stripExtension sf.name) g ≠ [] ∧
       derivedMatches config.files.originalDir (stripExtension sf.name) g ≠ [] ∧
       ∃ t ∈ derivedMatches config.files.thumbnailDir (stripExtension sf.name) g,
         sf.modTime < t.modTime) := by
  simp only [derivedMatches] at huniq ⊢
  cases hT : lastReservedMatch config.files.thumbnailDir (stripExtension sf.name) g.subdirectories with
  | none =>
    simp only [fileDecision, hT]
    constructor
    · intro h; simp at h
    · rintro ⟨-, -, t, ht, -⟩
      have hysome : (lastReservedMatch config.files.thumbnailDir (stripExtension sf.name)
          g.subdirectories).isSome = true := by
        apply (lastReservedMatch_isSome _ _ _).mpr
        obtain ⟨sd, hsd, hn, hm, hb⟩ := (derivedMatchesIn_mem _ _ _ t).mp ht
        exact ⟨sd, hsd, hn, t, hm, hb⟩
      rw [hT] at hysome
      simp at hysome
  | some t =>
    cases hF : lastReservedMatch config.files.fullsizeDir (stripExtension sf.name) g.subdirectories with
    | none =>
      simp only [fileDecision, hT, hF]
      constructor
      · intro h; simp at h
      · rintro ⟨hfz, -, -⟩
        obtain ⟨sd, hsd, hn, f, hf, hb⟩ := (derivedMatchesIn_ne_nil _ _ _).mp hfz
        have hysome : (lastReservedMatch config.files.fullsizeDir (stripExtension sf.name)
            g.subdirectories).isSome = true :=
          (lastReservedMatch_isSome _ _ _).mpr ⟨sd, hsd, hn, f, hf, hb⟩
        rw [hF] at hysome
        simp at hysome
    | some f1 =>
      cases hO : lastReservedMatch config.files.originalDir (stripExtension sf.name) g.subdirectories with
      | none =>
        simp only [fileDecision, hT, hF, hO]
        constructor
        · intro h; simp at h
        · rintro ⟨-, ho, -⟩
          obtain ⟨sd, hsd, hn, f, hf, hb⟩ := (derivedMatchesIn_ne_nil _ _ _).mp ho
          have hysome : (lastReservedMatch config.files.originalDir (stripExtension sf.name)
              g.subdirectories).isSome = true :=
            (lastReservedMatch_isSome _ _ _).mpr ⟨sd, hsd, hn, f, hf, hb⟩
          rw [hO] at hysome
          simp at hysome
      | some o1 =>
        simp only [fileDecision, hT, hF, hO, decide_eq_true_eq]
        have htm : t ∈ derivedMatchesIn config.files.thumbnailDir (stripExtension sf.name)
            g.subdirectories := by
          obtain ⟨sd, hsd, hn, hm, hb⟩ := lastReservedMatch_mem _ _ _ _ hT
          exact (derivedMatchesIn_mem _ _ _ t).mpr ⟨sd, hsd, hn, hm, hb⟩
        constructor
        · intro hlt
          refine ⟨?_, ?_, t, htm, hlt⟩
          · apply (derivedMatchesIn_ne_nil _ _ _).mpr
            obtain ⟨sd, hsd, hn, hm, hb⟩ := lastReservedMatch_mem _ _ _ _ hF
            exact ⟨sd, hsd, hn, f1, hm, hb⟩
          · apply (derivedMatchesIn_ne_nil _ _ _).mpr
            obtain ⟨sd, hsd, hn, hm, hb⟩ := lastReservedMatch_mem _ _ _ _ hO
            exact ⟨sd, hsd, hn, o1, hm, hb⟩
        · rintro ⟨-, -, t', ht', hlt⟩
          exact (mem_len_le_one huniq ht' htm) ▸ hlt

/-- C1 (counterexample): all three derived matches exist and the thumbnail's
modification time is not earlier than the source file's (they are equal), yet
after reconciliation the source file's up-to-date flag is still false — the
code requires the thumbnail to be strictly newer. -/
theorem C1_counterexample :
    derivedMatch initializeConfig.files.thumbnailDir (stripExtension c1SourceFile.name) c1Gallery c1ThumbFile ∧
    derivedMatch initializeConfig.files.fullsizeDir (stripExtension c1SourceFile.name) c1Gallery c1FullFile ∧
    derivedMatch initializeConfig.files.originalDir (stripExtension c1SourceFile.name) c1Gallery c1OrigFile ∧
    c1SourceFile.modTime ≤ c1ThumbFile.modTime ∧
    ((compareDirectoryTrees c1Source c1Gallery initializeConfig).1.files.map file.exists') = [false] := by
  refine ⟨?_, ?_, ?_, by decide, by rfl⟩
  · exact ⟨.mk "_thumbnail" "_thumbnail" "/gal/_thumbnail" 0 [c1ThumbFile] [] false,
      by simp [c1Gallery, directory.subdirectories], by decide, by decide, by decide⟩
  · exact ⟨.mk "_fullsize" "_fullsize" "/gal/_fullsize" 0 [c1FullFile] [] false,
      by simp [c1Gallery, directory.subdirectories], by decide, by decide, by decide⟩
  · exact ⟨.mk "_original" "_original" "/gal/_original" 0 [c1OrigFile] [] false,
      by simp [c1Gallery, directory.subdirectories], by decide, by decide, by decide⟩

/-- C1 (amended): for a freshly scanned source file (flag initially false)
whose thumbnail match is unique, reconciliation marks the flag true if and
only if all three derived matches (thumbnail, full-size, original) are found
in the gallery's reserved subdirectories AND the thumbnail's modification
time is strictly later than the source file's; a thumbnail whose
modification time equals the source's does not suffice. -/
theorem C1_amended (config : configuration) (s g : directory) (i : Nat) (sf : file)
    (hsf : s.files[i]? = some sf) (hfresh : sf.exists' = false)
    (huniq : (derivedMatches config.files.thumbnailDir (stripExtension sf.name) g).length ≤ 1) :
    ∃ sf', (compareSourceDir config s [g]).files[i]? = some sf' ∧
      (sf'.exists' = true ↔
        (derivedMatches config.files.fullsizeDir (stripExtension sf.name) g ≠ [] ∧
         derivedMatches config.files.originalDir (stripExtension sf.name) g ≠ [] ∧
         ∃ t ∈ derivedMatches config.files.thumbnailDir (stripExtension sf.name) g,
           sf.modTime < t.modTime)) := by
  cases s with
  | mk n rp ap mt fs subs ex =>
    simp only [directory.files] at hsf
    have hne : ([g] : List directory).isEmpty = false := rfl
    simp only [compareSourceDir, hne, Bool.false_eq_true, if_false, directory.files]
    rw [List.getElem?_map, hsf]
    simp only [Option.map_some']
    refine ⟨_, rfl, ?_⟩
    simp only [List.any_cons, List.any_nil, Bool.or_false]
    by_cases hd : fileDecision config sf g = true
    · rw [if_pos hd]
      exact iff_of_true rfl ((fileDecision_iff config sf g huniq).mp hd)
    · rw [if_neg hd]
      apply iff_of_false
      · rw [hfresh]; simp
      · intro hr
        exact hd ((fileDecision_iff config sf g huniq).mpr hr)

/-- C1 (witness): the amended theorem applied to the concrete equal-timestamp
input; all three matches exist but the strict freshness test fails, so the
flag stays false and the right-hand side is false as well. -/
theorem C1_witness :
    ∃ sf', (compareSourceDir initializeConfig c1Source [c1Gallery]).files[0]? = some sf' ∧
      (sf'.exists' = true ↔
        (derivedMatches initializeConfig.files.fullsizeDir (stripExtension c1SourceFile.name) c1Gallery ≠ [] ∧
         derivedMatches initializeConfig.files.originalDir (stripExtension c1SourceFile.name) c1Gallery ≠ [] ∧
         ∃ t ∈ derivedMatches initializeConfig.files.thumbnailDir (stripExtension c1SourceFile.name) c1Gallery,
           c1SourceFile.modTime < t.modTime)) :=
  C1_amended initializeConfig c1Source c1Gallery 0 c1SourceFile (by rfl) (by rfl) (by decide)

/-- C5 (counterexample): a readable source root with an unreadable
subdirectory (nominally containing a media file).  The claim says the run
must abort with a fatal error for every directory whose contents cannot be
read, including probe-only subdirectories; instead the probe treats the
unreadable subdirectory as media-free, the subdirectory is silently omitted,
and the scan succeeds. -/
theorem C5_counterexample :
    dirHasMediafiles (.dirE "locked" 0 false [.fileE "x.jpg" 1]) false = false ∧
    createDirectoryTree c5Root "/src" "" false =
      .ok (.mk "src" "" "/src" 0
        [{ name := "a.jpg", relPath := "a.jpg", absPath := "/src/a.jpg", modTime := 2, exists' := false }]
        [] false) :=
  ⟨rfl, rfl⟩

/-- Structural induction for `fsEntry` through the nested entry list. -/
theorem fsEntry.entryInduction (P : fsEntry → Prop)
    (hfile : ∀ n mt, P (.fileE n mt))
    (hdir : ∀ n mt r es, (∀ e ∈ es, P e) → P (.dirE n mt r es)) : ∀ e, P e
  | .fileE n mt => hfile n mt
  | .dirE n mt r es => hdir n mt r es (fun e _ => fsEntry.entryInduction P hfile hdir e)
termination_by e => sizeOf e
decreasing_by
  rename_i he
  have := List.sizeOf_lt_of_mem he
  simp only [fsEntry.dirE.sizeOf_spec]
  omega

/-- A directory that passes the media probe was readable. -/
theorem dirHasMediafiles_readable (n : String) (mt : Int) (r : Bool) (es : List fsEntry) (nv : Bool)
    (h : dirHasMediafiles (.dirE n mt r es) nv = true) : r = true := by
  cases r
  · simp [dirHasMediafiles] at h
  · rfl

/-- The scan loop never fails when every subdirectory it recurses into scans
successfully whenever it is readable (recursion is guarded by the probe,
which implies readability). -/
theorem scanEntries_isOk (nv : Bool) (es : List fsEntry)
    (hall : ∀ e ∈ es, ∀ (n : String) (mt : Int) (r : Bool) (sub : List fsEntry),
        e = .dirE n mt r sub → r = true → ∀ ap rel, (createDirectoryTree e ap rel nv).isOk = true) :
    ∀ ap rel, (scanEntries es ap rel nv).isOk = true := by
  induction es with
  | nil => intro ap rel; rfl
  | cons e es ihes =>
    intro ap rel
    have ihtail := ihes (fun e' he' => hall e' (List.mem_cons_of_mem e he')) ap rel
    cases e with
    | fileE n emt =>
      by_cases hm : isMediaFile n nv = true
      · simp only [scanEntries, hm, if_true]
        cases hs : scanEntries es ap rel nv with
        | error msg => rw [hs] at ihtail; simp [Except.isOk, Except.toBool] at ihtail
        | ok pr => cases pr; rfl
      · simp only [scanEntries, hm, if_false]
        exact ihtail
    | dirE n2 mt2 r2 sub2 =>
      by_cases hp : dirHasMediafiles (.dirE n2 mt2 r2 sub2) nv = true
      · have hr2 : r2 = true := dirHasMediafiles_readable n2 mt2 r2 sub2 nv hp
        have hok := hall (.dirE n2 mt2 r2 sub2) (List.mem_cons_self _ _) n2 mt2 r2 sub2 rfl hr2
          (goJoin ap (fsEntry.fsName (.dirE n2 mt2 r2 sub2)))
          (goJoin rel (fsEntry.fsName (.dirE n2 mt2 r2 sub2)))
        simp only [scanEntries, hp, if_true]
        cases hc : createDirectoryTree (.dirE n2 mt2 r2 sub2)
            (goJoin ap (fsEntry.fsName (.dirE n2 mt2 r2 sub2)))
            (goJoin rel (fsEntry.fsName (.dirE n2 mt2 r2 sub2))) nv with
        | error msg => rw [hc] at hok; simp [Except.isOk, Except.toBool] at hok
        | ok sub =>
          cases hs : scanEntries es ap rel nv with
          | error msg => rw [hs] at ihtail; simp [Except.isOk, Except.toBool] at ihtail
          | ok pr => cases pr; rfl
      · simp only [scanEntries, hp, if_false]
        exact ihtail

/-- A readable directory always scans successfully. -/
theorem createDirectoryTree_isOk_of_readable (nv : Bool) :
    ∀ e : fsEntry, ∀ (n : String) (mt : Int) (r : Bool) (es : List fsEntry),
      e = .dirE n mt r es → r = true → ∀ ap rel, (createDirectoryTree e ap rel nv).isOk = true := by
  intro e
  induction e using fsEntry.entryInduction with
  | hfile n mt =>
    intro n' mt' r es h
    exact fsEntry.noConfusion h
  | hdir n mt r es ih =>
    intro n' mt' r' es' heq hr ap rel
    cases heq
    subst hr
    have hse := scanEntries_isOk nv es ih ap rel
    simp only [createDirectoryTree, Bool.not_true, Bool.false_eq_true, if_false]
    cases hs : scanEntries es ap rel nv with
    | error msg => rw [hs] at hse; simp [Except.isOk, Except.toBool] at hse
    | ok pr => cases pr; rfl

/-- C5 (amended): a `ReadDir` failure on the directory being scanned is
fatal — the scan of a directory errors exactly when that directory itself is
unreadable.  A subdirectory probed by `dirHasMediafiles` whose contents
cannot be read is not fatal: the probe reports it media-free (second
conjunct), so it is omitted from the tree and scanning continues. -/
theorem C5_amended (n : String) (mt : Int) (r : Bool) (entries : List fsEntry)
    (ap rel : String) (nv : Bool) :
    ((createDirectoryTree (.dirE n mt r entries) ap rel nv).isOk = true ↔ r = true) ∧
    dirHasMediafiles (.dirE n mt false entries) nv = false := by
  refine ⟨⟨?_, ?_⟩, rfl⟩
  · intro h
    cases r
    · simp [createDirectoryTree, Except.isOk, Except.toBool] at h
    · rfl
  · intro hr
    exact createDirectoryTree_isOk_of_readable nv (.dirE n mt r entries) n mt r entries rfl hr ap rel

/-- C4: the current program's startup performs no reserved-name check of the
source tree.  On a source tree whose top level contains a directory with the
reserved name `_thumbnail` (holding a media file), the scan-and-reconcile
phase of `main` succeeds instead of aborting, and the reserved-named
directory is scanned into the source tree. -/
theorem C4_no_reserved_name_check :
    (mainPhase1 c4SourceRoot none "/src" "/gal" false initializeConfig).isOk = true ∧
    ((mainPhase1 c4SourceRoot none "/src" "/gal" false initializeConfig).toOption.map
      (fun pr => pr.1.subdirectories.map directory.name)) = some ["_thumbnail"] :=
  ⟨rfl, rfl⟩
